import Mathlib

/-!
Verification of the clife note-taking CLI (src/main.rs) against its design
specification.  The Rust program is shallowly embedded: pure helpers become
Lean functions, filesystem and console effects become explicit parameters
(injected operation results, scripted input lines, an explicit list of
existing paths), and panics / process exits become explicit constructors or
`none`.
-/

namespace Clife

/-- Models Rust `char::is_alphanumeric` on the ASCII fragment exercised by the
program (Unicode-only alphanumerics are outside the model). -/
def is_alphanumeric (c : Char) : Bool :=
  c.isAlpha || c.isDigit

/-- Models Rust `str::trim`: removes leading and trailing whitespace
characters (stated over the string's character list so that it computes by
structural recursion). -/
def trim (s : String) : String :=
  ⟨((s.data.dropWhile Char.isWhitespace).reverse.dropWhile Char.isWhitespace).reverse⟩

/-- Embedding of `validate_project_name` (src/main.rs:235-246): rejects input
whose trim is empty, then scans the characters of the *trimmed* string,
accepting only alphanumerics, '_' and '.'. -/
def validate_project_name (project_name : String) : Bool :=
  if (trim project_name).length == 0 then
    false
  else
    (trim project_name).toList.all (fun c => is_alphanumeric c || ['_', '.'].contains c)

namespace Index

/-- A filesystem path, as its list of components. -/
abbrev Path := List String

/-- Embedding of `Config` (src/main.rs:10-13). -/
structure Config where
  root_dir : Path

/-- Embedding of `Note` (src/main.rs:16-20). -/
structure Note where
  full_path : Path
  trunc_path : Path
deriving DecidableEq

mutual

/-- One entry of a directory listing: a regular file, a sub-directory whose
`read_dir` succeeds with the given listing, or a sub-directory whose
`read_dir` fails. -/
inductive FsEntry where
  | file : String → FsEntry
  | dirOk : String → EntryList → FsEntry
  | dirFail : String → FsEntry

/-- A directory listing, in filesystem-enumeration order. -/
inductive EntryList where
  | nil : EntryList
  | cons : FsEntry → EntryList → EntryList

end

/-- Models `PathBuf::strip_prefix`: the remainder of `p` once the `root_dir`
components are removed, when `root_dir` is a prefix of `p`. -/
def strip_pre (root_dir p : Path) : Option Path :=
  if root_dir <+: p then some (p.drop root_dir.length) else none

mutual

/-- The notes contributed by one directory entry in `_get_dir_notes`
(src/main.rs:71-90): a file is recorded as a Note whose `full_path` is
base joined with its name and whose `trunc_path` strips the root (the
`unwrap` of a failed strip, like any panic, is `none`); a sub-directory is
recursed into, and a failed `read_dir` panics (`none`). -/
def entry_notes (root_dir base : Path) : FsEntry → Option (List Note)
  | .file name =>
      match strip_pre root_dir (base ++ [name]) with
      | some t => some [{ full_path := base ++ [name], trunc_path := t }]
      | none => none
  | .dirOk name contents => entries_notes root_dir (base ++ [name]) contents
  | .dirFail _ => none

/-- The notes of a whole directory listing, in enumeration order (the `for`
loop of `_get_dir_notes`). -/
def entries_notes (root_dir base : Path) : EntryList → Option (List Note)
  | .nil => some []
  | .cons e rest => do
      let ns ← entry_notes root_dir base e
      let ms ← entries_notes root_dir base rest
      some (ns ++ ms)

end

/-- Embedding of `_get_dir_notes` (src/main.rs:71-90) at the top of one
directory: `read_result` is what `read_dir(base)` returned (`none` = the read
failed, so the `unwrap` panics). -/
def _get_dir_notes (root_dir base : Path) (read_result : Option EntryList) :
    Option (List Note) :=
  match read_result with
  | none => none
  | some contents => entries_notes root_dir base contents

/-- Embedding of `create_note_objects` (src/main.rs:58-62): walk the root
directory itself. -/
def create_note_objects (config : Config) (root_read : Option EntryList) :
    Option (List Note) :=
  _get_dir_notes config.root_dir config.root_dir root_read

mutual

/-- The number of regular files in one entry's subtree. -/
def FsEntry.fileCount : FsEntry → Nat
  | .file _ => 1
  | .dirOk _ contents => contents.fileCount
  | .dirFail _ => 0

/-- The number of regular files under a listing. -/
def EntryList.fileCount : EntryList → Nat
  | .nil => 0
  | .cons e rest => e.fileCount + rest.fileCount

end

mutual

/-- Every `read_dir` in the subtree succeeds. -/
def FsEntry.allOk : FsEntry → Bool
  | .file _ => true
  | .dirOk _ contents => contents.allOk
  | .dirFail _ => false

/-- Every `read_dir` under the listing succeeds. -/
def EntryList.allOk : EntryList → Bool
  | .nil => true
  | .cons e rest => e.allOk && rest.allOk

end

mutual

/-- Some `read_dir` in the subtree fails. -/
def FsEntry.hasFail : FsEntry → Bool
  | .file _ => false
  | .dirOk _ contents => contents.hasFail
  | .dirFail _ => true

/-- Some `read_dir` under the listing fails. -/
def EntryList.hasFail : EntryList → Bool
  | .nil => false
  | .cons e rest => e.hasFail || rest.hasFail

end

end Index

namespace Exec

/-- Embedding of `Config` with the path rendered as a single string, the way
the action-executor code manipulates it. -/
structure Config where
  root_dir : String

/-- Models `PathBuf::push`: appends one component after a separator. -/
def path_push (base name : String) : String :=
  base ++ "/" ++ name

/-- Models a `PathBuf` as `prompt_for_note` observes it: either its UTF-8
string rendering, or a path whose bytes are not valid UTF-8. -/
inductive PathStr where
  | utf8 : String → PathStr
  | invalid : PathStr
deriving DecidableEq

/-- Models `Path::to_str`: `none` exactly for non-UTF-8 paths. -/
def PathStr.to_str : PathStr → Option String
  | .utf8 s => some s
  | .invalid => none

/-- Embedding of `Note` for the executor/prompt layer. -/
structure Note where
  full_path : PathStr
  trunc_path : PathStr
deriving DecidableEq

/-- Embedding of `Action` (src/main.rs:22-27). -/
inductive Action where
  | CreateNote : Action
  | Delete : Action
  | CreateProject : Action

/-- Embedding of `detect_root_folder` (src/main.rs:34-41):
`try_exists_result` is what `try_exists` returned; an error panics (`none`). -/
def detect_root_folder (config : Config) (try_exists_result : Except String Bool) :
    Option Bool :=
  let _ := config
  match try_exists_result with
  | .ok b => some b
  | .error _ => none

/-- Embedding of `create_root_folder` (src/main.rs:48-51): the result of
`create_dir_all` is discarded (`_ =`), and the success message is printed
unconditionally; the returned value is the printed line, and the function
can never panic (it is total). -/
def create_root_folder (config : Config) (create_dir_result : Except String Unit) :
    String :=
  let _ := create_dir_result
  config.root_dir ++ " directory created!"

/-- The candidate note filename "new_note_<n>.md" built in `create_new_note`. -/
def note_file_name (n : Nat) : String :=
  "new_note_" ++ toString n ++ ".md"

/-- Embedding of `create_new_note` (src/main.rs:119-138): `fs` is the list of
full paths that exist, `note_suffix` the starting suffix; the `while` loop is
bounded by `fuel` (`none` = fuel exhausted, never the program's behavior on a
finite filesystem).  Returns the new note's full path and the filesystem
after `File::create`. -/
def create_new_note (config : Config) (fs : List String) :
    Nat → Nat → Option (String × List String)
  | _, 0 => none
  | note_suffix, fuel + 1 =>
      let note_name := note_file_name note_suffix
      let note_path := path_push config.root_dir note_name
      if note_path ∈ fs then
        create_new_note config fs (note_suffix + 1) fuel
      else
        some (note_path, note_path :: fs)

/-- Embedding of `prompt_for_note` (src/main.rs:146-166): reads scripted
input lines until the trimmed line compares equal (`==` through
`Path::to_str`) to some note's `trunc_path`; returns the trimmed line and
the unread input (`none` = input exhausted, the loop keeps prompting). -/
def prompt_for_note (notes : List Note) : List String → Option (String × List String)
  | [] => none
  | line :: rest =>
      if notes.any (fun e => e.trunc_path.to_str == some (trim line)) then
        some (trim line, rest)
      else
        prompt_for_note notes rest

/-- What `confirm_delete` does once it returns: the user cancelled
(`exit(0)`) or the deletion proceeds with the remaining input. -/
inductive ConfirmResult where
  | cancelled : ConfirmResult
  | proceed : List String → ConfirmResult
deriving DecidableEq

/-- Embedding of `confirm_delete` (src/main.rs:173-186): loops until the
trimmed line is "n" or "y"; "n" exits the process with code 0, "y" returns
normally (`none` = input exhausted, the loop keeps prompting). -/
def confirm_delete : List String → Option ConfirmResult
  | [] => none
  | line :: rest =>
      if trim line ∈ (["n", "y"] : List String) then
        if trim line = "n" then some .cancelled
        else some (.proceed rest)
      else
        confirm_delete rest

/-- Embedding of `prompt_for_project_name` (src/main.rs:209-228): loops until
`validate_project_name` accepts the line, then returns the trimmed line and
the unread input. -/
def prompt_for_project_name : List String → Option (String × List String)
  | [] => none
  | line :: rest =>
      if validate_project_name line then some (trim line, rest)
      else prompt_for_project_name rest

/-- Models `std::fs::remove_file` on the filesystem model: removing an absent
path is an error. -/
def remove_file (fs : List String) (p : String) : Except String (List String) :=
  if p ∈ fs then .ok (fs.erase p) else .error "No such file or directory"

/-- Embedding of `delete` (src/main.rs:193-206): panics (`none`) exactly when
`remove_file` fails; otherwise returns the filesystem with the file gone. -/
def delete (fs : List String) (full_path : String) : Option (List String) :=
  match remove_file fs full_path with
  | .ok fs' => some fs'
  | .error _ => none

/-- How one run of `main`'s action dispatch ends: normal return, `exit(0)`,
or a panic. -/
inductive ExecResult where
  | done : List String → ExecResult
  | exited0 : List String → ExecResult
  | fatal : ExecResult
deriving DecidableEq

/-- Embedding of the `match action` dispatch of `main` (src/main.rs:265-285):
`notes` is the index built at startup, `fs` the list of existing full paths,
`inputs` the scripted stdin lines, `fuel` bounds the create-note loop.
CreateNote runs `create_new_note` starting at `notes.len() + 1` (the
spawned editor is external and its status ignored); Delete prompts for a
note, confirms, joins the root with the answer and removes it; CreateProject
prompts for a project name and does nothing else.  `none` = blocked on
input or fuel. -/
def run_action (config : Config) (notes : List Note) (fs : List String)
    (inputs : List String) (fuel : Nat) : Action → Option ExecResult
  | .CreateNote =>
      match create_new_note config fs (notes.length + 1) fuel with
      | none => none
      | some (_, fs') => some (.done fs')
  | .Delete =>
      match prompt_for_note notes inputs with
      | none => none
      | some (note_path, rest) =>
          match confirm_delete rest with
          | none => none
          | some .cancelled => some (.exited0 fs)
          | some (.proceed _) =>
              match delete fs (path_push config.root_dir note_path) with
              | none => some .fatal
              | some fs' => some (.done fs')
  | .CreateProject =>
      match prompt_for_project_name inputs with
      | none => none
      | some _ => some (.done fs)

end Exec

/-- A string whose length is zero is the empty string. -/
theorem string_eq_empty_of_length_eq_zero {s : String} (h : s.length = 0) : s = "" := by
  cases s with
  | mk data =>
    cases data with
    | nil => rfl
    | cons a l => simp [String.length] at h

/-- C1 counterexample: the string "   hello   " has characters (spaces) that
are not alphanumeric, '_' or '.', yet `validate_project_name` returns true on
it, so the character-class check does not run against the untrimmed input. -/
theorem validate_project_name_untrimmed_scan_cex :
    (∃ c ∈ "   hello   ".toList, (is_alphanumeric c || ['_', '.'].contains c) = false)
    ∧ validate_project_name "   hello   " = true := by
  decide

/-- C1 (amended): `validate_project_name` runs its character-class check
against the *trimmed* input string: it returns false whenever some character
of `trim s` is not alphanumeric, '_', or '.'. -/
theorem validate_project_name_scans_trimmed (s : String) (c : Char)
    (hc : c ∈ (trim s).toList)
    (hbad : (is_alphanumeric c || ['_', '.'].contains c) = false) :
    validate_project_name s = false := by
  unfold validate_project_name
  by_cases h0 : (trim s).length == 0
  · simp [h0]
  · simp only [h0, Bool.false_eq_true, if_false]
    cases hall : (trim s).toList.all (fun c => is_alphanumeric c || ['_', '.'].contains c)
    · rfl
    · have htrue := List.all_eq_true.mp hall c hc
      rw [hbad] at htrue
      exact absurd htrue (by decide)

/-- C1 witness: the amended theorem applied to "a& b" at the character '&'. -/
theorem validate_project_name_scans_trimmed_witness :
    validate_project_name "a& b" = false :=
  validate_project_name_scans_trimmed "a& b" '&' (by decide) (by decide)

/-- C9: `validate_project_name s` is true exactly when `trim s` is non-empty
and every character of `trim s` is alphanumeric, '_' or '.'; in particular
surrounding whitespace is accepted: "   hello   " validates as true. -/
theorem validate_project_name_iff_trimmed :
    (∀ s : String, validate_project_name s = true ↔
      (trim s ≠ "" ∧ ∀ c ∈ (trim s).toList,
        (is_alphanumeric c || ['_', '.'].contains c) = true))
    ∧ validate_project_name "   hello   " = true := by
  constructor
  · intro s
    unfold validate_project_name
    by_cases h0 : (trim s).length == 0
    · have : trim s = "" := string_eq_empty_of_length_eq_zero (by simpa using h0)
      simp [h0, this]
    · have hne : trim s ≠ "" := by
        intro h
        rw [h] at h0
        exact h0 rfl
      simp [h0, hne, List.all_eq_true]
  · decide

/-- C2: `validate_project_name` accepts "test", "test_1", "my.project",
".HELLO.P_Arker_" and rejects "hello parker", "&parker", "_hello_(". -/
theorem validate_project_name_examples :
    validate_project_name "test" = true
    ∧ validate_project_name "test_1" = true
    ∧ validate_project_name "my.project" = true
    ∧ validate_project_name ".HELLO.P_Arker_" = true
    ∧ validate_project_name "hello parker" = false
    ∧ validate_project_name "&parker" = false
    ∧ validate_project_name "_hello_(" = false := by
  decide

namespace Index

/-- When `root_dir` is a prefix of `base`, stripping it from `base ++ [name]`
succeeds and joining it back restores the path. -/
theorem strip_pre_spec {root_dir base : Path} (h : root_dir <+: base) (name : String) :
    ∃ t, strip_pre root_dir (base ++ [name]) = some t
      ∧ root_dir ++ t = base ++ [name] := by
  obtain ⟨u, hu⟩ := h
  have hb : base ++ [name] = root_dir ++ (u ++ [name]) := by
    rw [← List.append_assoc, hu]
  refine ⟨(base ++ [name]).drop root_dir.length, ?_, ?_⟩
  · unfold strip_pre
    rw [if_pos ⟨u ++ [name], hb.symm⟩]
  · rw [hb, List.drop_left]

mutual

/-- In a subtree whose reads all succeed, `entry_notes` returns one note per
file and every note's full path is the root joined with its truncated path. -/
theorem entry_notes_spec : ∀ (root_dir base : Path), root_dir <+: base →
    ∀ e : FsEntry, e.allOk = true →
    ∃ ns, entry_notes root_dir base e = some ns
      ∧ ns.length = e.fileCount
      ∧ ∀ n ∈ ns, n.full_path = root_dir ++ n.trunc_path
  | root_dir, base, h, .file name, _ => by
      obtain ⟨t, hs, ht⟩ := strip_pre_spec h name
      refine ⟨[{ full_path := base ++ [name], trunc_path := t }], ?_, rfl, ?_⟩
      · simp [entry_notes, hs]
      · intro n hn
        simp only [List.mem_singleton] at hn
        subst hn
        exact ht.symm
  | root_dir, base, h, .dirOk name contents, hok => by
      have h' : root_dir <+: base ++ [name] := h.trans (List.prefix_append base [name])
      obtain ⟨ns, hns, hlen, hinv⟩ :=
        entries_notes_spec root_dir (base ++ [name]) h' contents
          (by simpa [FsEntry.allOk] using hok)
      exact ⟨ns, by simpa [entry_notes] using hns,
        by simpa [FsEntry.fileCount] using hlen, hinv⟩
  | root_dir, base, h, .dirFail name, hok => by
      simp [FsEntry.allOk] at hok

/-- The listing-level half of `entry_notes_spec`. -/
theorem entries_notes_spec : ∀ (root_dir base : Path), root_dir <+: base →
    ∀ l : EntryList, l.allOk = true →
    ∃ ns, entries_notes root_dir base l = some ns
      ∧ ns.length = l.fileCount
      ∧ ∀ n ∈ ns, n.full_path = root_dir ++ n.trunc_path
  | root_dir, base, h, .nil, _ => ⟨[], rfl, rfl, by simp⟩
  | root_dir, base, h, .cons e rest, hok => by
      have hsplit : e.allOk = true ∧ rest.allOk = true := by
        simpa [EntryList.allOk, Bool.and_eq_true] using hok
      obtain ⟨ns, hns, hlen, hinv⟩ := entry_notes_spec root_dir base h e hsplit.1
      obtain ⟨ms, hms, hlen2, hinv2⟩ := entries_notes_spec root_dir base h rest hsplit.2
      refine ⟨ns ++ ms, ?_, ?_, ?_⟩
      · simp [entries_notes, hns, hms]
      · simp [EntryList.fileCount, hlen, hlen2]
      · intro n hn
        rcases List.mem_append.mp hn with h1 | h2
        · exact hinv n h1
        · exact hinv2 n h2

end

mutual

/-- A failed `read_dir` anywhere in an entry's subtree makes `entry_notes`
panic: no partial result is produced. -/
theorem entry_notes_fail : ∀ (root_dir base : Path) (e : FsEntry), e.hasFail = true →
    entry_notes root_dir base e = none
  | root_dir, base, .file name, hf => by simp [FsEntry.hasFail] at hf
  | root_dir, base, .dirOk name contents, hf => by
      have := entries_notes_fail root_dir (base ++ [name]) contents
        (by simpa [FsEntry.hasFail] using hf)
      simpa [entry_notes] using this
  | root_dir, base, .dirFail name, _ => rfl

/-- The listing-level half of `entry_notes_fail`. -/
theorem entries_notes_fail : ∀ (root_dir base : Path) (l : EntryList), l.hasFail = true →
    entries_notes root_dir base l = none
  | root_dir, base, .nil, hf => by simp [EntryList.hasFail] at hf
  | root_dir, base, .cons e rest, hf => by
      have hor : e.hasFail = true ∨ rest.hasFail = true := by
        simpa [EntryList.hasFail] using hf
      rcases hor with h1 | h2
      · simp [entries_notes, entry_notes_fail root_dir base e h1]
      · cases he : entry_notes root_dir base e with
        | none => simp [entries_notes, he]
        | some ns =>
            simp [entries_notes, he, entries_notes_fail root_dir base rest h2]

end

end Index

/-- C3: for every root tree all of whose directory reads succeed and which
contains exactly N regular files across any nesting, `create_note_objects`
returns exactly N Note records, and every returned note's `full_path` equals
the root directory joined with its `trunc_path`. -/
theorem create_note_objects_count_and_join (config : Index.Config)
    (root_listing : Index.EntryList) (hok : root_listing.allOk = true) :
    ∃ ns, Index.create_note_objects config (some root_listing) = some ns
      ∧ ns.length = root_listing.fileCount
      ∧ ∀ note ∈ ns, note.full_path = config.root_dir ++ note.trunc_path :=
  Index.entries_notes_spec config.root_dir config.root_dir
    (List.prefix_refl _) root_listing hok

/-- The spec's §8 scenario: sub-directory a/ holding x.md and sub-directory
b/ holding y.md and z.txt. -/
def scenario_listing : Index.EntryList :=
  .cons (.dirOk "a" (.cons (.file "x.md") .nil))
    (.cons (.dirOk "b" (.cons (.file "y.md") (.cons (.file "z.txt") .nil))) .nil)

/-- C3 witness: the claim instantiated on the spec's three-file scenario. -/
theorem create_note_objects_count_and_join_witness :
    ∃ ns, Index.create_note_objects ⟨["root"]⟩ (some scenario_listing) = some ns
      ∧ ns.length = scenario_listing.fileCount
      ∧ ∀ note ∈ ns, note.full_path = ["root"] ++ note.trunc_path :=
  create_note_objects_count_and_join ⟨["root"]⟩ scenario_listing
    (by simp [scenario_listing, Index.EntryList.allOk, Index.FsEntry.allOk])

/-- C8: filesystem failures are fatal: a failed root-existence check panics,
a failed root read or any failed directory read during indexing panics with
no partial result, and a failed removal in `delete` panics. -/
theorem filesystem_failures_are_fatal :
    (∀ (config : Exec.Config) (e : String),
        Exec.detect_root_folder config (.error e) = none)
    ∧ (∀ config : Index.Config, Index.create_note_objects config none = none)
    ∧ (∀ (config : Index.Config) (l : Index.EntryList), l.hasFail = true →
        Index.create_note_objects config (some l) = none)
    ∧ (∀ (fs : List String) (p : String), p ∉ fs → Exec.delete fs p = none) := by
  refine ⟨fun config e => rfl, fun config => rfl, ?_, ?_⟩
  · intro config l hf
    exact Index.entries_notes_fail config.root_dir config.root_dir l hf
  · intro fs p hp
    simp [Exec.delete, Exec.remove_file, hp]

/-- C8 witness: each fatal case at a concrete input. -/
theorem filesystem_failures_are_fatal_witness :
    Exec.detect_root_folder ⟨"/r"⟩ (.error "denied") = none
    ∧ Index.create_note_objects ⟨["r"]⟩ none = none
    ∧ Index.create_note_objects ⟨["r"]⟩ (some (.cons (.dirFail "a") .nil)) = none
    ∧ Exec.delete ["a.md"] "b.md" = none :=
  ⟨filesystem_failures_are_fatal.1 ⟨"/r"⟩ "denied",
   filesystem_failures_are_fatal.2.1 ⟨["r"]⟩,
   filesystem_failures_are_fatal.2.2.1 ⟨["r"]⟩ (.cons (.dirFail "a") .nil)
     (by simp [Index.EntryList.hasFail, Index.FsEntry.hasFail]),
   filesystem_failures_are_fatal.2.2.2 ["a.md"] "b.md" (by decide)⟩

/-- C7: `create_root_folder` discards any error from directory creation and
unconditionally reports success: for every configuration and every outcome of
the `create_dir_all` call, including an error, the call completes (it is a
total function of the model, never a panic) and produces the
"directory created!" message. -/
theorem create_root_folder_ignores_errors :
    ∀ (config : Exec.Config) (r : Except String Unit),
      Exec.create_root_folder config r = config.root_dir ++ " directory created!" :=
  fun _ _ => rfl

/-- C5: a run of the CreateProject action prompts for (and validates) a
project name but mutates nothing: whenever the dispatch completes on
CreateProject, it ends normally with the filesystem it started with. -/
theorem create_project_leaves_fs_unchanged
    (config : Exec.Config) (notes : List Exec.Note) (fs : List String)
    (inputs : List String) (fuel : Nat) (r : Exec.ExecResult)
    (h : Exec.run_action config notes fs inputs fuel .CreateProject = some r) :
    r = .done fs := by
  unfold Exec.run_action at h
  cases hp : Exec.prompt_for_project_name inputs with
  | none => rw [hp] at h; exact absurd h (by simp)
  | some v => rw [hp] at h; exact (Option.some_inj.mp h).symm

/-- C5 witness: the claim instantiated on a run that answers "proj". -/
theorem create_project_leaves_fs_unchanged_witness :
    Exec.ExecResult.done ["/r/a.md"] = Exec.ExecResult.done ["/r/a.md"] :=
  create_project_leaves_fs_unchanged ⟨"/r"⟩ [] ["/r/a.md"] ["proj"] 0
    (.done ["/r/a.md"]) (by decide)

/-- C6: `confirm_delete` accepts only trimmed "y" and "n": "n" terminates the
process with exit code 0 and, in the Delete dispatch, leaves the filesystem
(so the target file) untouched; "y" returns normally; any other line
re-prompts on the remaining input. -/
theorem confirm_delete_behavior :
    (∀ (line : String) (rest : List String), trim line = "n" →
        Exec.confirm_delete (line :: rest) = some .cancelled)
    ∧ (∀ (line : String) (rest : List String), trim line = "y" →
        Exec.confirm_delete (line :: rest) = some (.proceed rest))
    ∧ (∀ (line : String) (rest : List String), trim line ≠ "n" → trim line ≠ "y" →
        Exec.confirm_delete (line :: rest) = Exec.confirm_delete rest)
    ∧ (∀ (config : Exec.Config) (notes : List Exec.Note) (fs inputs : List String)
        (fuel : Nat) (note_path : String) (rest : List String),
        Exec.prompt_for_note notes inputs = some (note_path, rest) →
        Exec.confirm_delete rest = some .cancelled →
        Exec.run_action config notes fs inputs fuel .Delete = some (.exited0 fs)) := by
  refine ⟨?_, ?_, ?_, ?_⟩
  · intro line rest h
    simp [Exec.confirm_delete, h]
  · intro line rest h
    simp [Exec.confirm_delete, h]
  · intro line rest h1 h2
    simp [Exec.confirm_delete, h1, h2]
  · intro config notes fs inputs fuel note_path rest hpn hcd
    simp [Exec.run_action, hpn, hcd]

/-- C6 witness: the four conjuncts at concrete inputs ("n", "y", a malformed
line, and a full Delete dispatch cancelled with "n"). -/
theorem confirm_delete_behavior_witness :
    Exec.confirm_delete ["n"] = some .cancelled
    ∧ Exec.confirm_delete ["y", "q"] = some (.proceed ["q"])
    ∧ Exec.confirm_delete ["maybe", "n"] = Exec.confirm_delete ["n"]
    ∧ Exec.run_action ⟨"/r"⟩ [⟨.utf8 "/r/a.md", .utf8 "a.md"⟩] ["/r/a.md"]
        ["a.md", "n"] 0 .Delete = some (.exited0 ["/r/a.md"]) :=
  ⟨confirm_delete_behavior.1 "n" [] (by decide),
   confirm_delete_behavior.2.1 "y" ["q"] (by decide),
   confirm_delete_behavior.2.2.1 "maybe" ["n"] (by decide) (by decide),
   confirm_delete_behavior.2.2.2 ⟨"/r"⟩ [⟨.utf8 "/r/a.md", .utf8 "a.md"⟩]
     ["/r/a.md"] ["a.md", "n"] 0 "a.md" ["n"] (by decide) (by decide)⟩

/-- C4: a completed `create_new_note` returns the first available candidate
"new_note_<m>.md" at or after the starting suffix: every earlier candidate
already exists, the returned path did not exist immediately before the call,
and the file is created there; in particular with new_note_5.md present and
starting suffix 5 the created note is new_note_6.md. -/
theorem create_new_note_first_available :
    (∀ (config : Exec.Config) (fs : List String) (n fuel : Nat) (p : String)
        (fs' : List String),
        Exec.create_new_note config fs n fuel = some (p, fs') →
        ∃ m, n ≤ m
          ∧ p = Exec.path_push config.root_dir (Exec.note_file_name m)
          ∧ p ∉ fs
          ∧ fs' = p :: fs
          ∧ ∀ k, n ≤ k → k < m →
              Exec.path_push config.root_dir (Exec.note_file_name k) ∈ fs)
    ∧ Exec.create_new_note ⟨"/home/parker/.clife"⟩
        [Exec.path_push "/home/parker/.clife" (Exec.note_file_name 5)] 5 2
      = some (Exec.path_push "/home/parker/.clife" (Exec.note_file_name 6),
          [Exec.path_push "/home/parker/.clife" (Exec.note_file_name 6),
           Exec.path_push "/home/parker/.clife" (Exec.note_file_name 5)]) := by
  constructor
  · intro config fs n fuel
    induction fuel generalizing n with
    | zero =>
        intro p fs' h
        exact absurd h (by simp [Exec.create_new_note])
    | succ fuel ih =>
        intro p fs' h
        by_cases hmem : Exec.path_push config.root_dir (Exec.note_file_name n) ∈ fs
        · have h' : Exec.create_new_note config fs (n + 1) fuel = some (p, fs') := by
            simpa [Exec.create_new_note, hmem] using h
          obtain ⟨m, hm1, hm2, hm3, hm4, hm5⟩ := ih (n + 1) p fs' h'
          refine ⟨m, by omega, hm2, hm3, hm4, ?_⟩
          intro k hk1 hk2
          rcases Nat.lt_or_ge k (n + 1) with hlt | hge
          · have hkn : k = n := by omega
            subst hkn
            exact hmem
          · exact hm5 k hge hk2
        · have h' : Exec.path_push config.root_dir (Exec.note_file_name n) = p
              ∧ Exec.path_push config.root_dir (Exec.note_file_name n) :: fs = fs' := by
            simpa [Exec.create_new_note, hmem] using h
          obtain ⟨hp, hfs⟩ := h'
          subst hp
          exact ⟨n, Nat.le_refl n, rfl, hmem, hfs.symm,
            fun k hk1 hk2 => absurd hk2 (by omega)⟩
  · decide

/-- C4 witness: the general half applied to an empty root with starting
suffix 1 and fuel 1. -/
theorem create_new_note_first_available_witness :
    ∃ m, 1 ≤ m
      ∧ Exec.path_push "r" (Exec.note_file_name 1)
          = Exec.path_push "r" (Exec.note_file_name m)
      ∧ Exec.path_push "r" (Exec.note_file_name 1) ∉ ([] : List String)
      ∧ [Exec.path_push "r" (Exec.note_file_name 1)]
          = Exec.path_push "r" (Exec.note_file_name 1) :: ([] : List String)
      ∧ ∀ k, 1 ≤ k → k < m →
          Exec.path_push "r" (Exec.note_file_name k) ∈ ([] : List String) :=
  create_new_note_first_available.1 ⟨"r"⟩ [] 1 1
    (Exec.path_push "r" (Exec.note_file_name 1))
    [Exec.path_push "r" (Exec.note_file_name 1)] (by decide)

/-- C10: whenever `prompt_for_note` returns, the returned string is the UTF-8
rendering (`to_str`) of some listed note's `trunc_path`; since the comparison
goes through `to_str`, a note whose `trunc_path` is not valid UTF-8
(`to_str = none`) can never be the note matched. -/
theorem prompt_for_note_returns_existing_trunc
    (notes : List Exec.Note) (inputs : List String) (p : String)
    (rest : List String)
    (h : Exec.prompt_for_note notes inputs = some (p, rest)) :
    ∃ note ∈ notes, note.trunc_path.to_str = some p := by
  induction inputs with
  | nil => exact absurd h (by simp [Exec.prompt_for_note])
  | cons line tail ih =>
      by_cases hm : notes.any (fun e => e.trunc_path.to_str == some (trim line))
      · have he : Exec.prompt_for_note notes (line :: tail) = some (trim line, tail) := by
          simp [Exec.prompt_for_note, hm]
        rw [he] at h
        obtain ⟨hp, hrest⟩ : trim line = p ∧ tail = rest := by simpa using h
        obtain ⟨e, he1, he2⟩ := List.any_eq_true.mp hm
        refine ⟨e, he1, ?_⟩
        rw [beq_iff_eq] at he2
        rw [he2, hp]
      · have he : Exec.prompt_for_note notes (line :: tail)
            = Exec.prompt_for_note notes tail := by
          simp [Exec.prompt_for_note, hm]
        rw [he] at h
        exact ih h

/-- C10 witness: the claim instantiated on a one-note index selected by its
exact truncated path. -/
theorem prompt_for_note_returns_existing_trunc_witness :
    ∃ note ∈ [(⟨Exec.PathStr.utf8 "/r/a.md", Exec.PathStr.utf8 "a.md"⟩ : Exec.Note)],
      note.trunc_path.to_str = some "a.md" :=
  prompt_for_note_returns_existing_trunc
    [⟨.utf8 "/r/a.md", .utf8 "a.md"⟩] ["a.md"] "a.md" [] (by decide)

end Clife
